import Mathlib

/-!
Verification of the dragonfly-client-rs scanner/client code.

The Rust source is shallowly embedded below. Pure functions become Lean
functions; Rust `HashSet` becomes `Finset`; fallible code returns `Except`;
machine integers are `Nat`/`Int` with explicit `% 2 ^ 64` where wrapping
matters. String processing (path extension, path components, URL paths) is
implemented with structural recursion over the character list of a `String`
so that every definition evaluates by kernel reduction.
-/

/-! ### String helpers (structural models of the std path/string operations) -/

/-- Split a character list at every occurrence of `sep`.
Mirrors Rust `str::split` / `String::splitOn`: the empty input yields one
empty piece, and separators at the ends yield empty pieces. -/
def splitChar (sep : Char) : List Char → List (List Char)
  | [] => [[]]
  | c :: cs =>
    let r := splitChar sep cs
    if c = sep then [] :: r
    else
      match r with
      | h :: t => (c :: h) :: t
      | [] => [[c]]

/-- The last `/`-separated component of a path, as a character list.
Models Rust `Path::file_name` for the simple entry paths the scanner sees. -/
def lastComponent (l : List Char) : List Char :=
  (splitChar '/' l).getLastD []

/-- Rust `Path::extension` on a file name: `none` when the name contains no
dot or only a single leading dot; otherwise the piece after the last dot. -/
def rustExtension (name : List Char) : Option (List Char) :=
  match splitChar '.' name with
  | [] => none
  | [_] => none
  | p0 :: p1 :: ps =>
    if p0 = [] ∧ ps = [] then none else some ((p1 :: ps).getLastD [])

/-- `path.extension().unwrap_or_default()` from `scanner.rs`: the extension of
the path's final component, or the empty string when there is none. -/
def extensionD (path : String) : String :=
  ⟨(rustExtension (lastComponent path.data)).getD []⟩

/-- Rust `Path::components()` with `RootDir` filtered out, as in
`DistributionScanResults::inspector_url`: empty segments (root, `//`) are
dropped and `.` segments are normalized away except at the front. -/
def pathComponents (p : String) : List String :=
  match (splitChar '/' p.data).filter (fun c => c ≠ []) with
  | [] => []
  | c :: rest => (⟨c⟩ : String) :: (rest.filter (fun l => l ≠ ['.'])).map String.mk

/-! ### Data model from `scanner.rs` -/

/-- `RuleScore` from `scanner.rs`: a matched rule's name and its weight.
Equality and hashing are over both fields. -/
structure RuleScore where
  name : String
  score : Int
deriving DecidableEq

/-- `FileScanResult` from `scanner.rs`: an entry path and the rules it
matched (after filetype gating). -/
structure FileScanResult where
  path : String
  rules : List RuleScore
deriving DecidableEq

/-- `FileScanResult::calculate_score`: the sum of the matched rules' scores. -/
def FileScanResult.calculate_score (f : FileScanResult) : Int :=
  (f.rules.map RuleScore.score).sum

/-- `DistributionScanResults` from `scanner.rs`. -/
structure DistributionScanResults where
  file_scan_results : List FileScanResult
  base_inspector_url : String
deriving DecidableEq

/-- One step of Rust `Iterator::max_by_key`: keep the current maximum and,
on a tie, take the newer element. -/
def mbkStep {α : Type} (f : α → Int) (acc : Option α) (x : α) : Option α :=
  match acc with
  | none => some x
  | some m => if f m > f x then some m else some x

/-- Rust `Iterator::max_by_key` (used by `get_most_malicious_file` and by
`do_job`): fold with `mbkStep` — so among equal maxima the **last** one
wins. -/
def max_by_key {α : Type} (f : α → Int) (l : List α) : Option α :=
  l.foldl (mbkStep f) none

/-- `DistributionScanResults::get_most_malicious_file`. -/
def DistributionScanResults.get_most_malicious_file
    (d : DistributionScanResults) : Option FileScanResult :=
  max_by_key FileScanResult.calculate_score d.file_scan_results

/-- `DistributionScanResults::get_matched_rules`: insert every rule of every
file into a `HashSet` (modelled as a `Finset`). -/
def DistributionScanResults.get_matched_rules
    (d : DistributionScanResults) : Finset RuleScore :=
  d.file_scan_results.foldl
    (fun s f => f.rules.foldl (fun t r => insert r t) s) ∅

/-- `DistributionScanResults::get_total_score`: sum of the scores of the
distinct matched rules. -/
def DistributionScanResults.get_total_score
    (d : DistributionScanResults) : Int :=
  Finset.sum d.get_matched_rules RuleScore.score

/-- `url.path_segments_mut().pop_if_empty().extend(it)` from
`DistributionScanResults::inspector_url`: drop a trailing empty segment of
the base URL, then append each path component after a `/`. -/
def urlJoin (base : String) (segs : List String) : String :=
  let b : List Char :=
    if base.data.getLast? = some '/' then base.data.dropLast else base.data
  ⟨segs.foldl (fun acc s => acc ++ '/' :: s.data) b⟩

/-- `DistributionScanResults::inspector_url`: the inspector URL of the most
malicious file, `none` when there is no most malicious file. -/
def DistributionScanResults.inspector_url
    (d : DistributionScanResults) : Option String :=
  d.get_most_malicious_file.map
    (fun f => urlJoin d.base_inspector_url (pathComponents f.path))

/-! ### Rule metadata from `exts.rs` -/

/-- A compiled yara rule as the scanner sees it: its identifier together with
the two metadata entries the client reads (`weight`, an optional integer, and
`filetype`, an optional string). -/
structure YaraRule where
  identifier : String
  weight : Option Int
  filetype : Option String
deriving DecidableEq

/-- `RuleExt::get_filetypes`: split the `filetype` metadata string on single
spaces; `none` when the metadata is absent. -/
def YaraRule.get_filetypes (r : YaraRule) : Option (List String) :=
  r.filetype.map (fun s => (splitChar ' ' s.data).map String.mk)

/-- `RuleExt::get_rule_weight`: the integer `weight` metadata, else `0`. -/
def YaraRule.get_rule_weight (r : YaraRule) : Int :=
  r.weight.getD 0

/-- `impl From<Rule> for RuleScore` from `exts.rs`. -/
def RuleScore.ofRule (r : YaraRule) : RuleScore :=
  ⟨r.identifier, r.get_rule_weight⟩

/-- The filetype-gating filter inside `scan_buf`: a matched rule is kept iff
its filetype list is absent or empty, or some entry of the list equals
`path.extension().unwrap_or_default()`. -/
def rule_applies (r : YaraRule) (path : String) : Bool :=
  match r.get_filetypes with
  | none => true
  | some fts => fts.isEmpty || fts.any (fun ft => extensionD path == ft)

/-- `scan_buf` from `scanner.rs`. The rule engine (`Rules::scan_mem`) is
external; its output for this entry's bytes is the `matches` argument.
`scan_buf` keeps the matches that pass filetype gating and converts them to
`RuleScore`s. -/
def scan_buf (matched : List YaraRule) (path : String) : FileScanResult :=
  ⟨path, (matched.filter (fun r => rule_applies r path)).map RuleScore.ofRule⟩

/-! ### Archive scanning from `scanner.rs` -/

/-- One successfully read tar entry: its path, its declared size, and the
matches the external rule engine reports for its contents.
(`tar.entries()?.filter_map(Result::ok)` already dropped unreadable
entries.) -/
structure TarEntry where
  path : String
  size : Nat
  yaraMatches : List YaraRule
deriving DecidableEq

/-- One zip entry read from the stream. `enclosedName` models
`ZipFile::enclosed_name`: `none` when the stored name cannot be interpreted
as a safe relative path. -/
structure ZipEntry where
  enclosedName : Option String
  size : Nat
  yaraMatches : List YaraRule
deriving DecidableEq

/-- The `eyre!("File {} too large, {} bytes > {} bytes", ...)` message. -/
def oversizeMsg (path : String) (size maxScanSize : Nat) : String :=
  "File " ++ (path ++ (" too large, " ++ (Nat.repr size ++ (" bytes > " ++ (Nat.repr maxScanSize ++ " bytes")))))

/-- `scan_targz`: iterate the entries in order; an entry no larger than
`maxScanSize` is read and scanned with `scan_buf`; a larger entry aborts the
whole distribution with an oversize error. -/
def scan_targz (maxScanSize : Nat) : List TarEntry → Except String (List FileScanResult)
  | [] => Except.ok []
  | e :: rest =>
    if e.size ≤ maxScanSize then
      (scan_targz maxScanSize rest).map (fun rs => scan_buf e.yaraMatches e.path :: rs)
    else
      Except.error (oversizeMsg e.path e.size maxScanSize)

/-- `scan_zip`: like `scan_targz`, except that an entry whose name does not
parse to a safe relative path is skipped (with a warning) before any size
check. -/
def scan_zip (maxScanSize : Nat) : List ZipEntry → Except String (List FileScanResult)
  | [] => Except.ok []
  | e :: rest =>
    match e.enclosedName with
    | none => scan_zip maxScanSize rest
    | some p =>
      if e.size ≤ maxScanSize then
        (scan_zip maxScanSize rest).map (fun rs => scan_buf e.yaraMatches p :: rs)
      else
        Except.error (oversizeMsg p e.size maxScanSize)

/-! ### `utils.rs`: the inspector URL rewrite -/

/-- A parsed URL as far as `create_inspector_url` touches it: scheme, host
and path (the path of an URL with a host always starts with `/`). -/
structure Url where
  scheme : String
  host : String
  path : String
deriving DecidableEq

/-- `str::strip_prefix` specialised to one character: drop a leading slash,
`none` when the string does not start with one. -/
def dropLeadingSlash (s : String) : Option String :=
  match s.data with
  | '/' :: rest => some ⟨rest⟩
  | _ => none

/-- `create_inspector_url` from `utils.rs`: build
`project/{name}/{version}/{path-without-leading-slash}/`, set the host to
`inspector.pypi.io` and set that string as the new path (`Url::set_path`
restores the leading slash). `none` models the `.unwrap()` panic when the
URL path does not start with `/`. -/
def create_inspector_url (name version : String) (u : Url) : Option Url :=
  (dropLeadingSlash u.path).map (fun stripped =>
    { u with
      host := "inspector.pypi.io",
      path := "/" ++ ("project/" ++ (name ++ ("/" ++ (version ++ ("/" ++ (stripped ++ "/")))))) })

/-! ### `api.rs`: authenticated requests with one retry on 401 -/

/-- The outcome of one HTTP request: a value, or a `reqwest` error that may
carry an HTTP status code. -/
inductive HttpResult (α : Type) where
  | ok : α → HttpResult α
  | err : Option Nat → HttpResult α
deriving DecidableEq

/-- Whether a result is an error with status 401 UNAUTHORIZED. -/
def HttpResult.is401 {α : Type} : HttpResult α → Bool
  | .err (some s) => s == 401
  | _ => false

/-- `DragonflyClient::bulk_get_job`: issue the request with the current
access token; on a 401 error, reauthenticate (modelled by the `newToken`
that `reauthenticate` eventually returns) and retry exactly once with the
new token; any other first result is returned unchanged. `request` is the
pure response map of `fetch_bulk_job` for this call. -/
def bulk_get_job {α : Type} (request : String → HttpResult α)
    (token newToken : String) : HttpResult α :=
  if (request token).is401 then request newToken else request token

/-- `DragonflyClient::send_success`: same 401-retry wrapper around
`send_success`. -/
def client_send_success (request : String → HttpResult Unit)
    (token newToken : String) : HttpResult Unit :=
  if (request token).is401 then request newToken else request token

/-- `DragonflyClient::send_error`: same 401-retry wrapper around
`send_error`. -/
def client_send_error (request : String → HttpResult Unit)
    (token newToken : String) : HttpResult Unit :=
  if (request token).is401 then request newToken else request token

/-! ### `client/models.rs`: yara match conversion -/

/-- `usize` modulus: the wrapping arithmetic of release builds. -/
def USIZE_MOD : Nat := 2 ^ 64

/-- A raw `yara::Match`: byte offset of the match and the matched bytes. -/
structure YaraMatch where
  offset : Nat
  data : List Nat
deriving DecidableEq

/-- The submitted `Range`; `endIdx` is the `end` field. -/
structure MatchRange where
  start : Nat
  endIdx : Nat
deriving DecidableEq

/-- The submitted `Match`. -/
structure ClientMatch where
  range : MatchRange
  data : List Nat
deriving DecidableEq

/-- `impl From<yara::Match> for Match`: `start = offset` and
`end = offset + data.len() - 1` in wrapping `usize` arithmetic, written as
`(offset + len + (2^64 - 1)) % 2^64`, which is exactly the wrapped value of
`offset + len - 1`. -/
def ClientMatch.ofYara (m : YaraMatch) : ClientMatch :=
  { range :=
      { start := m.offset % USIZE_MOD,
        endIdx := (m.offset + m.data.length + (USIZE_MOD - 1)) % USIZE_MOD },
    data := m.data }

/-! ### `main.rs`: one job -/

/-- `SubmitJobResultsBody` from `main.rs` / `api_models.rs`: the success
submission body. -/
structure SubmitJobResultsBody where
  name : String
  version : String
  score : Int
  inspector_url : Option String
  rules_matched : List String
deriving DecidableEq

/-- `get_matched_rule_identifiers` maps the matched-rules `HashSet` to the
rule names. A `HashSet`'s iteration order is unspecified, so the enumeration
`order` of the set is a parameter of the embedding; `HashSetOrder d order`
says `order` is a legitimate enumeration of `d.get_matched_rules`. -/
def HashSetOrder (d : DistributionScanResults) (order : List RuleScore) : Prop :=
  order.Nodup ∧ order.toFinset = d.get_matched_rules

/-- `DistributionScanResults::get_matched_rule_identifiers`, applied to one
enumeration of the matched-rules set. -/
def get_matched_rule_identifiers (order : List RuleScore) : List String :=
  order.map RuleScore.name

/-- The `for download_url in &job.distributions { scan_distribution(...)? }`
loop of `do_job`: collect every distribution's scan result, stopping at the
first error. The per-distribution scan outcomes are the oracle input. -/
def collectResults :
    List (Except String DistributionScanResults) →
      Except String (List DistributionScanResults)
  | [] => Except.ok []
  | Except.error e :: _ => Except.error e
  | Except.ok d :: rest => (collectResults rest).map (fun ds => d :: ds)

/-- The `let body = SubmitJobResultsBody { ... }` block of `do_job`: the
success body built from the winning distribution. The score is the winning
distribution's total score when an inspector URL exists, else `0`. -/
def successBody (name version : String) (highest : DistributionScanResults)
    (order : List RuleScore) : SubmitJobResultsBody :=
  { name := name, version := version,
    score := if highest.inspector_url.isSome then highest.get_total_score else 0,
    inspector_url := highest.inspector_url,
    rules_matched := get_matched_rule_identifiers order }

/-- `do_job` from `main.rs`. Inputs: the job's name and version, the scan
outcome of each distribution (in `job.distributions` order), the `HashSet`
enumeration used for `rules_matched` of the winning distribution, and the
outcome of the final submission request. The inspector URL is the
`Option`-valued URL of the winning distribution's most malicious file
(`DistributionScanResults::inspector_url`); it is `some` exactly when
`get_most_malicious_file` is, as in the `if let Some(...)` in `main.rs`.

Output: `none` models the `.unwrap()` panic when the job has no
distributions; otherwise `some (submissions, outcome)` where `submissions`
are the bodies handed to `submit_job_results` (in order) and `outcome` is
what `do_job` returns. -/
def do_job (name version : String)
    (scans : List (Except String DistributionScanResults))
    (order : List RuleScore)
    (submitRes : Except String Unit) :
    Option (List SubmitJobResultsBody × Except String Unit) :=
  match collectResults scans with
  | Except.error e => some ([], Except.error e)
  | Except.ok results =>
    match max_by_key DistributionScanResults.get_total_score results with
    | none => none
    | some highest => some ([successBody name version highest order], submitRes)

/-! ### Spec-side definition for the filetype-gating claim -/

/-- Plain suffix test on the whole path string. -/
def strEndsWith (s suffix : String) : Bool :=
  List.isSuffixOf suffix.data s.data

/-- Modelled from the spec: the spec's wording of filetype gating — a match
is kept iff the filetype list is empty/absent or the file's **path ends
with** one of the listed suffixes (plain suffix string match). Stated only
for comparison with `rule_applies`, which is the source's behavior. -/
def rule_applies_spec (r : YaraRule) (path : String) : Bool :=
  match r.get_filetypes with
  | none => true
  | some fts => fts.isEmpty || fts.any (fun ft => strEndsWith path ft)

/-! ### Concrete values used by counterexamples and witnesses -/

/-- A rule whose `filetype` metadata is `"py"`. -/
def rPy : YaraRule := ⟨"detect_py", some 1, some "py"⟩

/-- A rule whose `filetype` metadata is `"py js"`. -/
def rPyJs : YaraRule := ⟨"detect_py_js", some 7, some "py js"⟩

/-- A matched rule named `rule1` of weight 5. -/
def rsA : RuleScore := ⟨"rule1", 5⟩

/-- A matched rule named `rule2` of weight 7. -/
def rsB : RuleScore := ⟨"rule2", 7⟩

/-- Two files that matched distinct rules. -/
def dTwoRules : DistributionScanResults :=
  ⟨[⟨"f1.txt", [rsA]⟩, ⟨"f2.txt", [rsB]⟩], "https://example.com/dist/"⟩

/-- Two files with equal scores 7, in archive order `x.txt` then `y.txt`. -/
def fxTie : FileScanResult := ⟨"x.txt", [⟨"rule_a", 7⟩]⟩

/-- Second file of the tie. -/
def fyTie : FileScanResult := ⟨"y.txt", [⟨"rule_b", 7⟩]⟩

/-- A distribution with the two tied files above. -/
def dTie : DistributionScanResults := ⟨[fxTie, fyTie], "https://example.com/dist/"⟩

/-- A distribution whose single file has no matches at all. -/
def dNoMatch : DistributionScanResults :=
  ⟨[⟨"a.txt", []⟩], "https://inspector.pypi.io/project/n/v/p/"⟩

/-- One rule of weight 5 matching two different files. -/
def dDupRule : DistributionScanResults :=
  ⟨[⟨"a.txt", [⟨"contains_rust", 5⟩]⟩, ⟨"b.txt", [⟨"contains_rust", 5⟩]⟩], ""⟩

/-- A response map that returns 401 for the old token and a value for any
other token. -/
def req401 : String → HttpResult Nat :=
  fun t => if t = "oldtoken" then HttpResult.err (some 401) else HttpResult.ok 7

/-- A response map that always succeeds. -/
def reqOk : String → HttpResult Unit := fun _ => HttpResult.ok ()

theorem foldl_insert_toFinset (l : List RuleScore) (s : Finset RuleScore) :
    l.foldl (fun t r => insert r t) s = l.toFinset ∪ s := by
  induction l generalizing s with
  | nil => simp
  | cons r l ih =>
    rw [List.foldl_cons, ih, List.toFinset_cons, Finset.union_insert, Finset.insert_union]

theorem foldl_files_toFinset (fs : List FileScanResult) (s : Finset RuleScore) :
    fs.foldl (fun s f => f.rules.foldl (fun t r => insert r t) s) s
      = (fs.flatMap FileScanResult.rules).toFinset ∪ s := by
  induction fs generalizing s with
  | nil => simp
  | cons f fs ih =>
    rw [List.foldl_cons, ih, foldl_insert_toFinset, List.flatMap_cons, List.toFinset_append,
      ← Finset.union_assoc, Finset.union_comm (fs.flatMap FileScanResult.rules).toFinset]

theorem get_matched_rules_eq (d : DistributionScanResults) :
    d.get_matched_rules = (d.file_scan_results.flatMap FileScanResult.rules).toFinset := by
  rw [DistributionScanResults.get_matched_rules, foldl_files_toFinset, Finset.union_empty]

theorem mbkStep_some {α : Type} (f : α → Int) (m x : α) :
    mbkStep f (some m) x = if f m > f x then some m else some x := rfl

theorem foldl_mbkStep_spec {α : Type} (f : α → Int) (l : List α) :
    ∀ m : α, ∃ r l1 l2,
      List.foldl (mbkStep f) (some m) l = some r ∧
      m :: l = l1 ++ r :: l2 ∧
      (∀ x ∈ l1, f x ≤ f r) ∧ (∀ x ∈ l2, f x < f r) := by
  induction l with
  | nil =>
    intro m
    exact ⟨m, [], [], rfl, rfl, by simp, by simp⟩
  | cons x l ih =>
    intro m
    rw [List.foldl_cons, mbkStep_some]
    by_cases h : f m > f x
    · rw [if_pos h]
      obtain ⟨r, l1, l2, hfold, hdec, h1, h2⟩ := ih m
      cases l1 with
      | nil =>
        rw [List.nil_append] at hdec
        obtain ⟨hm, hl⟩ := List.cons.inj hdec
        refine ⟨r, [], x :: l, hfold, by rw [List.nil_append, ← hm], by simp, ?_⟩
        intro y hy
        rcases List.mem_cons.mp hy with hy | hy
        · subst hy; rw [← hm]; exact h
        · rw [hl] at hy; exact h2 y hy
      | cons a t =>
        rw [List.cons_append] at hdec
        obtain ⟨hm, hl⟩ := List.cons.inj hdec
        have hmr : f m ≤ f r := by rw [hm]; exact h1 a (List.mem_cons_self a t)
        refine ⟨r, m :: x :: t, l2, hfold, ?_, ?_, h2⟩
        · rw [List.cons_append, List.cons_append, ← hl]
        · intro y hy
          rcases List.mem_cons.mp hy with hy | hy
          · subst hy; exact hmr
          rcases List.mem_cons.mp hy with hy | hy
          · subst hy; exact le_of_lt (lt_of_lt_of_le h hmr)
          · exact h1 y (List.mem_cons_of_mem a hy)
    · rw [if_neg h]
      push_neg at h
      obtain ⟨r, l1, l2, hfold, hdec, h1, h2⟩ := ih x
      have hxr : f x ≤ f r := by
        cases l1 with
        | nil =>
          rw [List.nil_append] at hdec
          obtain ⟨h3, _⟩ := List.cons.inj hdec
          rw [h3]
        | cons a t =>
          rw [List.cons_append] at hdec
          obtain ⟨h3, _⟩ := List.cons.inj hdec
          rw [h3]; exact h1 a (List.mem_cons_self a t)
      refine ⟨r, m :: l1, l2, hfold, ?_, ?_, h2⟩
      · rw [List.cons_append, ← hdec]
      · intro y hy
        rcases List.mem_cons.mp hy with hy | hy
        · subst hy; exact le_trans h hxr
        · exact h1 y hy

theorem max_by_key_spec {α : Type} (f : α → Int) (l : List α) (hl : l ≠ []) :
    ∃ r l1 l2,
      max_by_key f l = some r ∧ l = l1 ++ r :: l2 ∧
      (∀ x ∈ l1, f x ≤ f r) ∧ (∀ x ∈ l2, f x < f r) := by
  cases l with
  | nil => exact absurd rfl hl
  | cons a l =>
    obtain ⟨r, l1, l2, hfold, hdec, h1, h2⟩ := foldl_mbkStep_spec f l a
    exact ⟨r, l1, l2, hfold, hdec, h1, h2⟩

theorem max_by_key_eq_none_iff {α : Type} (f : α → Int) (l : List α) :
    max_by_key f l = none ↔ l = [] := by
  constructor
  · intro h
    by_contra hne
    obtain ⟨r, _, _, hr, _, _, _⟩ := max_by_key_spec f l hne
    rw [h] at hr
    exact Option.noConfusion hr
  · intro h; subst h; rfl

theorem max_by_key_isSome_iff {α : Type} (f : α → Int) (l : List α) :
    (max_by_key f l).isSome = true ↔ l ≠ [] := by
  rw [Option.isSome_iff_ne_none]
  exact not_congr (max_by_key_eq_none_iff f l)

theorem collectResults_map_ok (ds : List DistributionScanResults) :
    collectResults (ds.map Except.ok) = Except.ok ds := by
  induction ds with
  | nil => rfl
  | cons d ds ih => simp [collectResults, ih, Except.map]

theorem collectResults_first_error (pre : List DistributionScanResults) (e : String)
    (post : List (Except String DistributionScanResults)) :
    collectResults (pre.map Except.ok ++ Except.error e :: post) = Except.error e := by
  induction pre with
  | nil => rfl
  | cons d pre ih => simp [collectResults, ih, Except.map]

theorem scan_targz_all_small (maxScanSize : Nat) (entries : List TarEntry)
    (h : ∀ x ∈ entries, x.size ≤ maxScanSize) :
    scan_targz maxScanSize entries
      = Except.ok (entries.map (fun x => scan_buf x.yaraMatches x.path)) := by
  induction entries with
  | nil => rfl
  | cons x rest ih =>
    have hx : x.size ≤ maxScanSize := h x (List.mem_cons_self x rest)
    rw [scan_targz, if_pos hx, ih (fun y hy => h y (List.mem_cons_of_mem x hy))]
    rfl

theorem scan_targz_oversize (maxScanSize : Nat) (pre : List TarEntry) (e : TarEntry)
    (post : List TarEntry) (hpre : ∀ x ∈ pre, x.size ≤ maxScanSize)
    (he : e.size > maxScanSize) :
    scan_targz maxScanSize (pre ++ e :: post)
      = Except.error (oversizeMsg e.path e.size maxScanSize) := by
  induction pre with
  | nil =>
    rw [List.nil_append, scan_targz, if_neg (not_le.mpr he)]
  | cons x pre ih =>
    have hx : x.size ≤ maxScanSize := hpre x (List.mem_cons_self x pre)
    rw [List.cons_append, scan_targz, if_pos hx,
      ih (fun y hy => hpre y (List.mem_cons_of_mem x hy))]
    rfl

theorem scan_zip_all_small (maxScanSize : Nat) (entries : List ZipEntry)
    (h : ∀ x ∈ entries, ∀ p, x.enclosedName = some p → x.size ≤ maxScanSize) :
    scan_zip maxScanSize entries
      = Except.ok (entries.filterMap
          (fun x => x.enclosedName.map (fun p => scan_buf x.yaraMatches p))) := by
  induction entries with
  | nil => rfl
  | cons x rest ih =>
    have ihr := ih (fun y hy => h y (List.mem_cons_of_mem x hy))
    cases hn : x.enclosedName with
    | none =>
      rw [scan_zip, hn, ihr, List.filterMap_cons, hn]
      rfl
    | some p =>
      have hx : x.size ≤ maxScanSize := h x (List.mem_cons_self x rest) p hn
      simp [scan_zip, hn, if_pos hx, ihr, List.filterMap_cons, Except.map]

theorem scan_zip_oversize (maxScanSize : Nat) (pre : List ZipEntry) (e : ZipEntry)
    (p : String) (post : List ZipEntry)
    (hpre : ∀ x ∈ pre, x.enclosedName = none ∨ x.size ≤ maxScanSize)
    (hname : e.enclosedName = some p) (he : e.size > maxScanSize) :
    scan_zip maxScanSize (pre ++ e :: post)
      = Except.error (oversizeMsg p e.size maxScanSize) := by
  induction pre with
  | nil =>
    rw [List.nil_append, scan_zip, hname]
    simp [if_neg (not_le.mpr he)]
  | cons x pre ih =>
    have ihr := ih (fun y hy => hpre y (List.mem_cons_of_mem x hy))
    cases hn : x.enclosedName with
    | none => rw [List.cons_append, scan_zip, hn, ihr]
    | some q =>
      have hx : x.size ≤ maxScanSize := by
        rcases hpre x (List.mem_cons_self x pre) with hc | hc
        · rw [hn] at hc; exact Option.noConfusion hc
        · exact hc
      rw [List.cons_append, scan_zip, hn]
      simp [if_pos hx, ihr, Except.map]

/-- C1: `get_total_score` is the sum of the weights of the distinct
`RuleScore` pairs matched across all files of the distribution, each
distinct pair counted exactly once; in particular one rule of weight 5
matching two files contributes 5, not 10. -/
theorem C1_total_score_dedup :
    (∀ d : DistributionScanResults,
        d.get_total_score
          = Finset.sum (d.file_scan_results.flatMap FileScanResult.rules).toFinset
              RuleScore.score)
    ∧ dDupRule.get_total_score = 5 := by
  constructor
  · intro d
    rw [DistributionScanResults.get_total_score, get_matched_rules_eq]
  · decide

/-- C5 counterexample: with two files of equal score 7 in archive order
`x.txt`, `y.txt`, `get_most_malicious_file` returns `y.txt` (the
last-encountered one), not the first-encountered `x.txt` the claim
requires. -/
theorem C5_counterexample :
    dTie.get_most_malicious_file = some fyTie ∧ fyTie ≠ fxTie := by
  constructor
  · decide
  · decide

/-- C5 (amended): `get_most_malicious_file` returns a file of maximal score,
but ties are resolved to the **last**-encountered file in archive order: the
returned file is preceded only by files of score at most its own and
followed only by files of strictly smaller score. -/
theorem C5_most_malicious_last_max (d : DistributionScanResults)
    (h : d.file_scan_results ≠ []) :
    ∃ f l1 l2,
      d.get_most_malicious_file = some f ∧
      d.file_scan_results = l1 ++ f :: l2 ∧
      (∀ g ∈ l1, g.calculate_score ≤ f.calculate_score) ∧
      (∀ g ∈ l2, g.calculate_score < f.calculate_score) :=
  max_by_key_spec FileScanResult.calculate_score d.file_scan_results h

theorem C5_witness :
    dTie.file_scan_results ≠ [] ∧
    ∃ f l1 l2,
      dTie.get_most_malicious_file = some f ∧
      dTie.file_scan_results = l1 ++ f :: l2 ∧
      (∀ g ∈ l1, g.calculate_score ≤ f.calculate_score) ∧
      (∀ g ∈ l2, g.calculate_score < f.calculate_score) :=
  ⟨by decide, C5_most_malicious_last_max dTie (by decide)⟩

/-- C4 counterexample: the claim's suffix-match reading keeps the
`filetype = "py"` rule on path `foo.xpy` (which ends with `"py"`), but the
code compares the path's extension (`"xpy"`) for equality and drops the
match. -/
theorem C4_counterexample :
    rule_applies_spec rPy "foo.xpy" = true ∧ rule_applies rPy "foo.xpy" = false := by
  constructor
  · decide
  · decide

/-- C4 (amended): a match is kept iff the rule's filetype metadata is absent
(or splits to an empty list) or the path's extension — the part of the final
path component after its last dot, empty when there is none — **equals** one
of the listed entries; no suffix matching. The `"py js"` examples behave as
the claim says. -/
theorem C4_filetype_gating :
    (∀ (r : YaraRule) (path : String),
        rule_applies r path = true ↔
          (r.get_filetypes = none ∨ r.get_filetypes = some [] ∨
            ∃ fts ft, r.get_filetypes = some fts ∧ ft ∈ fts ∧ extensionD path = ft))
    ∧ (∀ (matched : List YaraRule) (path : String),
        (scan_buf matched path).rules
          = (matched.filter (fun r => rule_applies r path)).map RuleScore.ofRule)
    ∧ rule_applies rPyJs "foo.py" = true
    ∧ rule_applies rPyJs "bar.js" = true
    ∧ rule_applies rPyJs "baz.txt" = false := by
  refine ⟨?_, fun matched path => rfl, by decide, by decide, by decide⟩
  intro r path
  cases hf : r.get_filetypes with
  | none => simp [rule_applies, hf]
  | some fts =>
    rw [rule_applies]
    simp only [hf, Bool.or_eq_true, List.isEmpty_iff, List.any_eq_true, beq_iff_eq,
      Option.some.injEq, reduceCtorEq, false_or]
    constructor
    · rintro (h | ⟨ft, hmem, hft⟩)
      · exact Or.inl h
      · exact Or.inr ⟨fts, ft, rfl, hmem, hft⟩
    · rintro (h | ⟨fts2, ft, hfts, hmem, hft⟩)
      · exact Or.inl h
      · exact Or.inr ⟨ft, by rw [hfts]; exact hmem, hft⟩

/-- C2 counterexample: a zip entry whose stored name does not parse to a safe
relative path is skipped before any size check, so an entry of declared size
2048 with `max_scan_size = 1024` does **not** fail the distribution — the
scan returns `ok`. -/
theorem C2_counterexample :
    scan_zip 1024 [⟨none, 2048, []⟩] = Except.ok [] ∧ 2048 > 1024 := by
  exact ⟨rfl, by decide⟩

/-- C2 (amended): among tar entries (all successfully read entries) and zip
entries whose name parses to a safe relative path, an entry larger than
`max_scan_size` fails the whole distribution with an error whose message
contains the entry's path, and if every such entry is within the limit every
one of them is read and scanned (zip entries without a usable name are
skipped without any size check). -/
theorem C2_size_gate (maxScanSize : Nat) :
    (∀ (pre : List TarEntry) (e : TarEntry) (post : List TarEntry),
        (∀ x ∈ pre, x.size ≤ maxScanSize) → e.size > maxScanSize →
        scan_targz maxScanSize (pre ++ e :: post)
          = Except.error (oversizeMsg e.path e.size maxScanSize))
    ∧ (∀ entries : List TarEntry, (∀ x ∈ entries, x.size ≤ maxScanSize) →
        scan_targz maxScanSize entries
          = Except.ok (entries.map (fun x => scan_buf x.yaraMatches x.path)))
    ∧ (∀ (pre : List ZipEntry) (e : ZipEntry) (p : String) (post : List ZipEntry),
        (∀ x ∈ pre, x.enclosedName = none ∨ x.size ≤ maxScanSize) →
        e.enclosedName = some p → e.size > maxScanSize →
        scan_zip maxScanSize (pre ++ e :: post)
          = Except.error (oversizeMsg p e.size maxScanSize))
    ∧ (∀ entries : List ZipEntry,
        (∀ x ∈ entries, ∀ p, x.enclosedName = some p → x.size ≤ maxScanSize) →
        scan_zip maxScanSize entries
          = Except.ok (entries.filterMap
              (fun x => x.enclosedName.map (fun p => scan_buf x.yaraMatches p))))
    ∧ (∀ (path : String) (size : Nat),
        ∃ a b, oversizeMsg path size maxScanSize = a ++ (path ++ b)) := by
  refine ⟨?_, ?_, ?_, ?_, ?_⟩
  · intro pre e post hpre he
    exact scan_targz_oversize maxScanSize pre e post hpre he
  · intro entries h
    exact scan_targz_all_small maxScanSize entries h
  · intro pre e p post hpre hname he
    exact scan_zip_oversize maxScanSize pre e p post hpre hname he
  · intro entries h
    exact scan_zip_all_small maxScanSize entries h
  · intro path size
    exact ⟨"File ", " too large, " ++ (Nat.repr size ++ (" bytes > "
      ++ (Nat.repr maxScanSize ++ " bytes"))), rfl⟩

theorem C2_witness :
    (∀ x ∈ ([] : List TarEntry), x.size ≤ 1024) ∧ (2048 : Nat) > 1024 ∧
    scan_targz 1024 [⟨"big.bin", 2048, []⟩]
      = Except.error (oversizeMsg "big.bin" 2048 1024) :=
  ⟨by simp, by decide,
    (C2_size_gate 1024).1 [] ⟨"big.bin", 2048, []⟩ [] (by simp) (by decide)⟩

/-- C3 counterexample: when the single distribution's scan fails, `do_job`
returns the error having submitted **nothing** — the submissions list is
empty, so the job ends with neither a success nor a failure submission. -/
theorem C3_counterexample :
    do_job "pkg" "1.0.0" [Except.error "download failed"] [] (Except.ok ())
      = some ([], Except.error "download failed") := rfl

/-- C3 (amended): `do_job` submits at most once. When every distribution
scan succeeds and the job has at least one distribution, exactly one success
body is submitted; on any scan error the first error is returned with no
submission at all (the job is left unreported); the empty-distribution case
is the `unwrap` panic (`none`). -/
theorem C3_at_most_one_submission (name version : String)
    (order : List RuleScore) (submitRes : Except String Unit) :
    (∀ ds : List DistributionScanResults, ds ≠ [] →
        ∃ body, do_job name version (ds.map Except.ok) order submitRes
          = some ([body], submitRes))
    ∧ (∀ (pre : List DistributionScanResults) (e : String)
          (post : List (Except String DistributionScanResults)),
        do_job name version (pre.map Except.ok ++ Except.error e :: post) order submitRes
          = some ([], Except.error e))
    ∧ do_job name version [] order submitRes = none := by
  refine ⟨?_, ?_, rfl⟩
  · intro ds hds
    obtain ⟨w, l1, l2, hw, _, _, _⟩ :=
      max_by_key_spec DistributionScanResults.get_total_score ds hds
    exact ⟨successBody name version w order,
      by simp [do_job, collectResults_map_ok, hw]⟩
  · intro pre e post
    simp [do_job, collectResults_first_error]

theorem C3_witness :
    ([(⟨[], ""⟩ : DistributionScanResults)] ≠ []) ∧
    ∃ body,
      do_job "pkg" "1.0.0" ([(⟨[], ""⟩ : DistributionScanResults)].map Except.ok) []
          (Except.ok ())
        = some ([body], Except.ok ()) :=
  ⟨by decide,
    (C3_at_most_one_submission "pkg" "1.0.0" [] (Except.ok ())).1 [⟨[], ""⟩] (by decide)⟩

/-- C6 counterexample: a winning distribution whose only file has an empty
match list still yields `inspector_url = some …` in the submitted body —
`get_most_malicious_file` exists whenever the file list is non-empty,
matches or not. -/
theorem C6_counterexample :
    (do_job "n" "v" [Except.ok dNoMatch] [] (Except.ok ())).map Prod.fst
        = some [{ name := "n", version := "v", score := 0,
                  inspector_url := some "https://inspector.pypi.io/project/n/v/p/a.txt",
                  rules_matched := [] }]
    ∧ ∀ f ∈ dNoMatch.file_scan_results, f.rules = [] := by
  constructor
  · rfl
  · decide

/-- C6 (amended): in a job whose distribution scans all succeed, the
submitted `inspector_url` is `some` iff the winning distribution's file list
is non-empty — files with empty match lists count, so matches are not
required. -/
theorem C6_inspector_url_iff (name version : String) (order : List RuleScore)
    (submitRes : Except String Unit) (ds : List DistributionScanResults)
    (hds : ds ≠ []) :
    ∃ w, max_by_key DistributionScanResults.get_total_score ds = some w ∧
      do_job name version (ds.map Except.ok) order submitRes
        = some ([successBody name version w order], submitRes) ∧
      ((successBody name version w order).inspector_url.isSome = true
        ↔ w.file_scan_results ≠ []) := by
  obtain ⟨w, l1, l2, hw, _, _, _⟩ :=
    max_by_key_spec DistributionScanResults.get_total_score ds hds
  refine ⟨w, hw, by simp [do_job, collectResults_map_ok, hw], ?_⟩
  show w.inspector_url.isSome = true ↔ _
  rw [DistributionScanResults.inspector_url, Option.isSome_map']
  exact max_by_key_isSome_iff FileScanResult.calculate_score w.file_scan_results

theorem C6_witness :
    ([dNoMatch] ≠ []) ∧
    ∃ w, max_by_key DistributionScanResults.get_total_score [dNoMatch] = some w ∧
      do_job "n" "v" ([dNoMatch].map Except.ok) [] (Except.ok ())
        = some ([successBody "n" "v" w []], Except.ok ()) ∧
      ((successBody "n" "v" w []).inspector_url.isSome = true
        ↔ w.file_scan_results ≠ []) :=
  ⟨by decide, C6_inspector_url_iff "n" "v" [] (Except.ok ()) [dNoMatch] (by decide)⟩

theorem is401_iff {α : Type} (r : HttpResult α) :
    r.is401 = true ↔ r = HttpResult.err (some 401) := by
  cases r with
  | ok a => simp [HttpResult.is401]
  | err s =>
    cases s with
    | none => simp [HttpResult.is401]
    | some n => simp [HttpResult.is401]

theorem is401_eq_false {α : Type} (r : HttpResult α)
    (h : r ≠ HttpResult.err (some 401)) : r.is401 = false := by
  rw [← Bool.not_eq_true]
  exact fun hh => h ((is401_iff r).mp hh)

/-- C7: each authenticated request wrapper (`bulk_get_job`, `send_success`,
`send_error`) retries exactly once after a 401: a first 401 leads to one
reauthentication and one retry with the new token whose result (401 or
otherwise) is returned as is; any non-401 first result is returned without
a refresh. -/
theorem C7_retry_once_on_401 {α : Type} (reqJ : String → HttpResult α)
    (reqS reqE : String → HttpResult Unit) (token newToken : String) :
    (reqJ token = HttpResult.err (some 401) →
        bulk_get_job reqJ token newToken = reqJ newToken)
    ∧ (reqJ token ≠ HttpResult.err (some 401) →
        bulk_get_job reqJ token newToken = reqJ token)
    ∧ (reqS token = HttpResult.err (some 401) →
        client_send_success reqS token newToken = reqS newToken)
    ∧ (reqS token ≠ HttpResult.err (some 401) →
        client_send_success reqS token newToken = reqS token)
    ∧ (reqE token = HttpResult.err (some 401) →
        client_send_error reqE token newToken = reqE newToken)
    ∧ (reqE token ≠ HttpResult.err (some 401) →
        client_send_error reqE token newToken = reqE token) := by
  refine ⟨?_, ?_, ?_, ?_, ?_, ?_⟩
  · intro h; rw [bulk_get_job, (is401_iff _).mpr h]; rfl
  · intro h; rw [bulk_get_job, is401_eq_false _ h]; rfl
  · intro h; rw [client_send_success, (is401_iff _).mpr h]; rfl
  · intro h; rw [client_send_success, is401_eq_false _ h]; rfl
  · intro h; rw [client_send_error, (is401_iff _).mpr h]; rfl
  · intro h; rw [client_send_error, is401_eq_false _ h]; rfl

theorem C7_witness :
    req401 "oldtoken" = HttpResult.err (some 401) ∧
    bulk_get_job req401 "oldtoken" "newtoken" = req401 "newtoken" ∧
    req401 "newtoken" = HttpResult.ok 7 :=
  ⟨by decide,
    (C7_retry_once_on_401 req401 reqOk reqOk "oldtoken" "newtoken").1 (by decide),
    by decide⟩

/-- C8 counterexample: applying `create_inspector_url` to the URL it already
produced does not return the same URL — the second application prepends
`project/{name}/{version}/` again and appends another slash. -/
theorem C8_counterexample :
    (create_inspector_url "n" "v" ⟨"https", "host", "/p"⟩).bind
        (create_inspector_url "n" "v")
      ≠ create_inspector_url "n" "v" ⟨"https", "host", "/p"⟩ := by
  decide

/-- C8 (amended): `create_inspector_url` always rewrites the host to
`inspector.pypi.io` and the path to
`/project/{name}/{version}/{original path without its leading slash}/`;
hence re-applying it wraps the rewritten path in another
`project/{name}/{version}/…/` layer instead of leaving it unchanged — the
rewrite is not idempotent (only the host component is). -/
theorem C8_inspector_rewrite_shape (name version : String) (u : Url)
    (stripped : String) (h : dropLeadingSlash u.path = some stripped) :
    create_inspector_url name version u
      = some ⟨u.scheme, "inspector.pypi.io",
          "/" ++ ("project/" ++ (name ++ ("/" ++ (version ++ ("/" ++ (stripped ++ "/"))))))⟩
    ∧ ∀ u1, create_inspector_url name version u = some u1 →
        create_inspector_url name version u1
          = some ⟨u.scheme, "inspector.pypi.io",
              "/" ++ ("project/" ++ (name ++ ("/" ++ (version ++ ("/" ++
                (("project/" ++ (name ++ ("/" ++ (version ++ ("/" ++ (stripped ++ "/"))))))
                  ++ "/"))))))⟩ := by
  have h1 : create_inspector_url name version u
      = some ⟨u.scheme, "inspector.pypi.io",
          "/" ++ ("project/" ++ (name ++ ("/" ++ (version ++ ("/" ++ (stripped ++ "/"))))))⟩ := by
    rw [create_inspector_url, h]
    rfl
  refine ⟨h1, ?_⟩
  intro u1 hu1
  rw [h1] at hu1
  obtain rfl := Option.some.inj hu1
  rw [create_inspector_url]
  have h2 : dropLeadingSlash
      ("/" ++ ("project/" ++ (name ++ ("/" ++ (version ++ ("/" ++ (stripped ++ "/")))))))
      = some ("project/" ++ (name ++ ("/" ++ (version ++ ("/" ++ (stripped ++ "/")))))) := by
    rw [dropLeadingSlash]
    rfl
  rw [h2]
  rfl

theorem C8_witness :
    dropLeadingSlash (Url.path ⟨"https", "host", "/p"⟩) = some "p" ∧
    create_inspector_url "n" "v" ⟨"https", "host", "/p"⟩
      = some ⟨"https", "inspector.pypi.io",
          "/" ++ ("project/" ++ ("n" ++ ("/" ++ ("v" ++ ("/" ++ ("p" ++ "/"))))))⟩ :=
  ⟨rfl, (C8_inspector_rewrite_shape "n" "v" ⟨"https", "host", "/p"⟩ "p" rfl).1⟩

/-- C9 counterexample: two runs differing only in the (unspecified) iteration
order of the matched-rules `HashSet` produce different success bodies — the
`rules_matched` lists are `["rule1", "rule2"]` versus `["rule2", "rule1"]` —
so the success body is not byte-for-byte stable. -/
theorem C9_counterexample :
    HashSetOrder dTwoRules [rsA, rsB] ∧ HashSetOrder dTwoRules [rsB, rsA] ∧
    (do_job "p" "1" [Except.ok dTwoRules] [rsA, rsB] (Except.ok ())).map Prod.fst
      ≠ (do_job "p" "1" [Except.ok dTwoRules] [rsB, rsA] (Except.ok ())).map Prod.fst := by
  refine ⟨⟨?_, ?_⟩, ⟨?_, ?_⟩, ?_⟩ <;> decide

/-- C9 (amended): aggregation is deterministic only up to the `HashSet`
iteration order: any two legitimate enumerations of the matched-rules set
yield `rules_matched` lists that are permutations of each other (the same
identifiers as a multiset), while every other field of the success body is
a function of the scan results alone. -/
theorem C9_rules_matched_stable_up_to_order (d : DistributionScanResults)
    (o1 o2 : List RuleScore) (h1 : HashSetOrder d o1) (h2 : HashSetOrder d o2) :
    List.Perm (get_matched_rule_identifiers o1) (get_matched_rule_identifiers o2) := by
  have hp : List.Perm o1 o2 := by
    rcases h1 with ⟨n1, f1⟩
    rcases h2 with ⟨n2, f2⟩
    refine (List.perm_ext_iff_of_nodup n1 n2).mpr ?_
    intro a
    rw [← List.mem_toFinset, ← List.mem_toFinset, f1, f2]
  exact hp.map RuleScore.name

theorem C9_witness :
    HashSetOrder dTwoRules [rsA, rsB] ∧ HashSetOrder dTwoRules [rsB, rsA] ∧
    List.Perm (get_matched_rule_identifiers [rsA, rsB])
      (get_matched_rule_identifiers [rsB, rsA]) :=
  ⟨⟨by decide, by decide⟩, ⟨by decide, by decide⟩,
    C9_rules_matched_stable_up_to_order dTwoRules [rsA, rsB] [rsB, rsA]
      ⟨by decide, by decide⟩ ⟨by decide, by decide⟩⟩

/-- C10: converting a yara match computes `end = offset + len - 1` in
`usize` arithmetic. For non-empty data (and the trivially true bound
`offset + len ≤ 2^64` of in-memory data) the conversion is exact and
`start ≤ end`; for a zero-length match at offset 0 the subtraction
underflows and wraps to `2^64 - 1`. -/
theorem C10_match_range :
    (∀ m : YaraMatch, m.data ≠ [] → m.offset + m.data.length ≤ USIZE_MOD →
        (ClientMatch.ofYara m).range.endIdx = m.offset + m.data.length - 1 ∧
        (ClientMatch.ofYara m).range.start ≤ (ClientMatch.ofYara m).range.endIdx)
    ∧ (ClientMatch.ofYara ⟨0, []⟩).range.endIdx = USIZE_MOD - 1 := by
  constructor
  · intro m h1 h2
    have hU : 0 < USIZE_MOD := by norm_num [USIZE_MOD]
    have hn : 0 < m.data.length := List.length_pos.mpr h1
    have h3 : m.offset + m.data.length + (USIZE_MOD - 1)
        = (m.offset + m.data.length - 1) + USIZE_MOD := by omega
    have hend : (ClientMatch.ofYara m).range.endIdx = m.offset + m.data.length - 1 := by
      show (m.offset + m.data.length + (USIZE_MOD - 1)) % USIZE_MOD = _
      rw [h3, Nat.add_mod_right]
      exact Nat.mod_eq_of_lt (by omega)
    refine ⟨hend, ?_⟩
    show m.offset % USIZE_MOD ≤ _
    rw [hend, Nat.mod_eq_of_lt (by omega)]
    omega
  · show (0 + 0 + (USIZE_MOD - 1)) % USIZE_MOD = USIZE_MOD - 1
    have hU : 0 < USIZE_MOD := by norm_num [USIZE_MOD]
    exact Nat.mod_eq_of_lt (by omega)

theorem C10_witness :
    (([7, 8] : List Nat) ≠ []) ∧ 3 + ([7, 8] : List Nat).length ≤ USIZE_MOD ∧
    ((ClientMatch.ofYara ⟨3, [7, 8]⟩).range.endIdx = 4 ∧
      (ClientMatch.ofYara ⟨3, [7, 8]⟩).range.start
        ≤ (ClientMatch.ofYara ⟨3, [7, 8]⟩).range.endIdx) :=
  ⟨by decide, by decide, C10_match_range.1 ⟨3, [7, 8]⟩ (by decide) (by decide)⟩
